import Mathlib

/-!
Verification of the profiler serialization core of Mypal68
(tools/profiler/core/ProfileBufferEntry.h) and of the decrypt throughput
limiter (dom/media/platforms/agnostic/eme/DecryptThroughputLimit.h),
as a shallow embedding in Lean 4.

Machine integers are modelled as Nat (unsigned) or Int (signed) with
explicit reduction modulo 2^32 / 2^64 where the C++ code wraps.
Doubles only ever cross the entry codec as raw 8-byte patterns (memcpy),
so they are modelled by their 64-bit bit patterns.
-/

set_option autoImplicit false

namespace Mypal68

/-! ## mozilla hash primitives

Modelled from the spec: the "fast content hash" used by the interning
tables.  The bodies live in mfbt/HashFunctions.h, which is not part of
the given sources; this is the well-known golden-ratio rotate-xor hash
that mozilla::AddToHash / mozilla::HashString implement, on 32-bit
hash values. -/

/-- The golden-ratio multiplier of the 32-bit mozilla hash. -/
def kGoldenRatioU32 : Nat := 0x9E3779B9

/-- Rotate a 32-bit value left by 5 bits. -/
def rotateLeft5 (h : Nat) : Nat := ((h <<< 5) % 2 ^ 32) ||| (h >>> 27)

/-- mozilla::AddToHash for a 32-bit value: multiply the rotated hash
xor the value by the golden ratio, modulo 2^32. -/
def addU32ToHash (h v : Nat) : Nat :=
  (kGoldenRatioU32 * (rotateLeft5 h ^^^ v)) % 2 ^ 32

/-- mozilla::AddToHash for a 64-bit pointer: fold in the low and then
the high 32 bits. -/
def addPtrToHash (h p : Nat) : Nat :=
  addU32ToHash (addU32ToHash h (p % 2 ^ 32)) ((p >>> 32) % 2 ^ 32)

/-- mozilla::HashGeneric of a single 32-bit value: AddToHash starting
from 0. -/
def hashGeneric (v : Nat) : Nat := addU32ToHash 0 v

/-- mozilla::HashString: fold AddToHash over the characters. -/
def hashString (s : String) : Nat :=
  s.data.foldl (fun h c => addU32ToHash h c.toNat) 0

/-! ## Entry codec (class ProfileBufferEntry)

From ProfileBufferEntry.h lines 26-116: a Kind discriminant byte
(uint8_t) plus an 8-byte payload (mStorage).  Constructor and accessor
bodies live in ProfileBufferEntry.cpp (not under the given sources);
they are modelled from the spec: the matching constructor memcpy-s the
value into the 8-byte payload, the matching accessor memcpy-s it back
out, and an accessor whose payload type does not match the entry's
Kind is a fatal assertion, modelled as returning none. -/

/-- The Kind discriminant, from the FOR_EACH_PROFILE_BUFFER_ENTRY_KIND
macro table (lines 26-50) plus the INVALID = 0 and LIMIT sentinels. -/
inductive Kind where
  | INVALID
  | CategoryPair
  | CollectionStart
  | CollectionEnd
  | Label
  | FrameFlags
  | DynamicStringFragment
  | JitReturnAddr
  | LineNumber
  | ColumnNumber
  | NativeLeafAddr
  | Marker
  | Pause
  | Responsiveness
  | Resume
  | ThreadId
  | Time
  | ResidentMemory
  | UnsharedMemory
  | CounterId
  | CounterKey
  | Number
  | Count
  | ProfilerOverheadTime
  | ProfilerOverheadDuration
  | LIMIT
deriving DecidableEq, Repr

/-- The numeric value of the uint8_t discriminant, in declaration
order starting from INVALID = 0. -/
def Kind.tag : Kind → Nat
  | .INVALID => 0
  | .CategoryPair => 1
  | .CollectionStart => 2
  | .CollectionEnd => 3
  | .Label => 4
  | .FrameFlags => 5
  | .DynamicStringFragment => 6
  | .JitReturnAddr => 7
  | .LineNumber => 8
  | .ColumnNumber => 9
  | .NativeLeafAddr => 10
  | .Marker => 11
  | .Pause => 12
  | .Responsiveness => 13
  | .Resume => 14
  | .ThreadId => 15
  | .Time => 16
  | .ResidentMemory => 17
  | .UnsharedMemory => 18
  | .CounterId => 19
  | .CounterKey => 20
  | .Number => 21
  | .Count => 22
  | .ProfilerOverheadTime => 23
  | .ProfilerOverheadDuration => 24
  | .LIMIT => 25

/-- The payload type associated with each Kind by the macro table:
int, double, const char* (a static string pointer), uint64_t,
char[8], void*, ProfilerMarker*, or int64_t. -/
inductive PayloadTy where
  | tyInt
  | tyDouble
  | tyStaticStr
  | tyUint64
  | tyChars
  | tyPtr
  | tyMarkerPtr
  | tyInt64
deriving DecidableEq, Repr

/-- Kind-to-payload-type assignment, read off the macro table
(lines 27-50).  INVALID and LIMIT carry no payload type. -/
def kindPayloadTy : Kind → Option PayloadTy
  | .INVALID => none
  | .CategoryPair => some .tyInt
  | .CollectionStart => some .tyDouble
  | .CollectionEnd => some .tyDouble
  | .Label => some .tyStaticStr
  | .FrameFlags => some .tyUint64
  | .DynamicStringFragment => some .tyChars
  | .JitReturnAddr => some .tyPtr
  | .LineNumber => some .tyInt
  | .ColumnNumber => some .tyInt
  | .NativeLeafAddr => some .tyPtr
  | .Marker => some .tyMarkerPtr
  | .Pause => some .tyDouble
  | .Responsiveness => some .tyDouble
  | .Resume => some .tyDouble
  | .ThreadId => some .tyInt
  | .Time => some .tyDouble
  | .ResidentMemory => some .tyUint64
  | .UnsharedMemory => some .tyUint64
  | .CounterId => some .tyPtr
  | .CounterKey => some .tyUint64
  | .Number => some .tyUint64
  | .Count => some .tyInt64
  | .ProfilerOverheadTime => some .tyDouble
  | .ProfilerOverheadDuration => some .tyDouble
  | .LIMIT => none

/-- A payload value.  Doubles are represented by their 64-bit bit
pattern (the codec only ever memcpy-s their bytes); pointers by their
numeric address; char[8] by its list of bytes. -/
inductive PayloadValue where
  | vInt (i : Int)
  | vDouble (bits : Nat)
  | vStaticStr (p : Nat)
  | vUint64 (n : Nat)
  | vChars (bs : List Nat)
  | vPtr (p : Nat)
  | vMarkerPtr (p : Nat)
  | vInt64 (i : Int)
deriving DecidableEq, Repr

/-- The payload type of a payload value. -/
def payloadTy : PayloadValue → PayloadTy
  | .vInt _ => .tyInt
  | .vDouble _ => .tyDouble
  | .vStaticStr _ => .tyStaticStr
  | .vUint64 _ => .tyUint64
  | .vChars _ => .tyChars
  | .vPtr _ => .tyPtr
  | .vMarkerPtr _ => .tyMarkerPtr
  | .vInt64 _ => .tyInt64

/-- Values representable by the C++ types: 32-bit signed int, 64-bit
signed int, 64-bit unsigned quantities, and exactly 8 bytes for the
char[8] fragment. -/
def ValidValue : PayloadValue → Prop
  | .vInt i => -(2 ^ 31) ≤ i ∧ i < 2 ^ 31
  | .vDouble n => n < 2 ^ 64
  | .vStaticStr p => p < 2 ^ 64
  | .vUint64 n => n < 2 ^ 64
  | .vChars bs => bs.length = 8 ∧ ∀ b ∈ bs, b < 256
  | .vPtr p => p < 2 ^ 64
  | .vMarkerPtr p => p < 2 ^ 64
  | .vInt64 i => -(2 ^ 63) ≤ i ∧ i < 2 ^ 63

instance (v : PayloadValue) : Decidable (ValidValue v) := by
  cases v <;> (unfold ValidValue; infer_instance)

/-- Little-endian byte serialization: k bytes of n. -/
def toLEBytes : Nat → Nat → List Nat
  | 0, _ => []
  | k + 1, n => n % 256 :: toLEBytes k (n / 256)

/-- Little-endian byte deserialization. -/
def fromLEBytes : List Nat → Nat
  | [] => 0
  | b :: bs => b + 256 * fromLEBytes bs

/-- The memcpy of a value into the 8-byte mStorage array, modelled
byte for byte (little-endian).  A 4-byte int only writes its own 4
bytes; the model zero-fills the tail the accessors never read. -/
def encodeValue : PayloadValue → List Nat
  | .vInt i => toLEBytes 4 (i % 2 ^ 32).toNat ++ [0, 0, 0, 0]
  | .vDouble n => toLEBytes 8 n
  | .vStaticStr p => toLEBytes 8 p
  | .vUint64 n => toLEBytes 8 n
  | .vChars bs => bs
  | .vPtr p => toLEBytes 8 p
  | .vMarkerPtr p => toLEBytes 8 p
  | .vInt64 i => toLEBytes 8 (i % 2 ^ 64).toNat

/-- ProfileBufferEntry: Kind mKind; uint8_t mStorage[kNumChars]
(header lines 102-103, kNumChars = 8). -/
structure ProfileBufferEntry where
  mKind : Kind
  mStorage : List Nat
deriving DecidableEq, Repr

/-- Modelled from the spec: the per-kind static constructors (header
lines 80-85) construct an entry from a (Kind, value) pair whose type
is statically tied to the Kind; constructing with a mismatched type
does not typecheck in C++, modelled as none. -/
def construct (k : Kind) (v : PayloadValue) : Option ProfileBufferEntry :=
  if kindPayloadTy k = some (payloadTy v) then
    some ⟨k, encodeValue v⟩
  else
    none

/-- Modelled from the spec: GetDouble memcpy-s the 8 payload bytes
back as a double (here: its bit pattern); on a Kind whose payload is
not a double this is a fatal assertion, modelled as none. -/
def GetDouble (e : ProfileBufferEntry) : Option Nat :=
  if kindPayloadTy e.mKind = some .tyDouble then some (fromLEBytes e.mStorage)
  else none

/-- Modelled from the spec: GetInt reads the 4 low payload bytes as a
32-bit signed int (two's complement); mismatched Kind asserts. -/
def GetInt (e : ProfileBufferEntry) : Option Int :=
  if kindPayloadTy e.mKind = some .tyInt then
    some (let n := fromLEBytes (e.mStorage.take 4);
          if n < 2 ^ 31 then (n : Int) else (n : Int) - 2 ^ 32)
  else none

/-- Modelled from the spec: GetInt64 reads the 8 payload bytes as a
64-bit signed int; mismatched Kind asserts. -/
def GetInt64 (e : ProfileBufferEntry) : Option Int :=
  if kindPayloadTy e.mKind = some .tyInt64 then
    some (let n := fromLEBytes e.mStorage;
          if n < 2 ^ 63 then (n : Int) else (n : Int) - 2 ^ 64)
  else none

/-- Modelled from the spec: GetUint64 reads the 8 payload bytes as a
64-bit unsigned int; mismatched Kind asserts. -/
def GetUint64 (e : ProfileBufferEntry) : Option Nat :=
  if kindPayloadTy e.mKind = some .tyUint64 then some (fromLEBytes e.mStorage)
  else none

/-- Modelled from the spec: GetPtr reads the payload as a void*
address; mismatched Kind asserts. -/
def GetPtr (e : ProfileBufferEntry) : Option Nat :=
  if kindPayloadTy e.mKind = some .tyPtr then some (fromLEBytes e.mStorage)
  else none

/-- Modelled from the spec: GetMarker reads the payload as a
ProfilerMarker* address; mismatched Kind asserts. -/
def GetMarker (e : ProfileBufferEntry) : Option Nat :=
  if kindPayloadTy e.mKind = some .tyMarkerPtr then some (fromLEBytes e.mStorage)
  else none

/-- Modelled from the spec: GetString reads the payload as a static
const char* address; mismatched Kind asserts. -/
def GetString (e : ProfileBufferEntry) : Option Nat :=
  if kindPayloadTy e.mKind = some .tyStaticStr then some (fromLEBytes e.mStorage)
  else none

/-- Modelled from the spec: CopyCharsInto copies the 8 raw payload
bytes out; mismatched Kind asserts. -/
def CopyCharsInto (e : ProfileBufferEntry) : Option (List Nat) :=
  if kindPayloadTy e.mKind = some .tyChars then some e.mStorage
  else none

/-- Dispatch to the accessor matching a payload type, re-wrapping the
result as a payload value. -/
def readBack (t : PayloadTy) (e : ProfileBufferEntry) : Option PayloadValue :=
  match t with
  | .tyInt => (GetInt e).map .vInt
  | .tyDouble => (GetDouble e).map .vDouble
  | .tyStaticStr => (GetString e).map .vStaticStr
  | .tyUint64 => (GetUint64 e).map .vUint64
  | .tyChars => (CopyCharsInto e).map .vChars
  | .tyPtr => (GetPtr e).map .vPtr
  | .tyMarkerPtr => (GetMarker e).map .vMarkerPtr
  | .tyInt64 => (GetInt64 e).map .vInt64

/-- The serialized form of an entry: the discriminant byte followed
by the 8 payload bytes (header lines 102-103 and static_assert at
line 116). -/
def serializeEntry (e : ProfileBufferEntry) : List Nat :=
  e.mKind.tag :: e.mStorage

/-! ## String interner (class UniqueJSONStrings)

Header lines 118-141.  The state is the chunked JSON writer holding
the string-table elements in emission order (modelled as the list of
strings written) and the HashMap from mozilla::HashNumber to uint32_t
index (modelled as the association list of (hash, index) pairs in
insertion order) — note the map is keyed by the content hash alone
(header line 140); no string content is retained for comparison. -/

structure UniqueJSONStrings where
  mStringTableWriter : List String
  mStringHashToIndexMap : List (Nat × Nat)
deriving DecidableEq, Repr

/-- First value in an association list whose key equals h. -/
def lookupHash : List (Nat × Nat) → Nat → Option Nat
  | [], _ => none
  | p :: ps, h => if p.1 = h then some p.2 else lookupHash ps h

/-- Modelled from the spec: the body of
UniqueJSONStrings::GetOrAddIndex lives in ProfileBufferEntry.cpp, not
under the given sources.  Following the spec (amortized lookup through
a hash map from the fast content hash to the index, appending on a
miss) over the state declared in the header (line 140): hash the
string, look the hash up in mStringHashToIndexMap, return the stored
index on a hit; on a miss assign the next index, record (hash, index)
and emit the string into the string-table writer.  The declared map
type HashMap<HashNumber, uint32_t> stores no string content, so no
full-string comparison can occur on a hash hit. -/
def GetOrAddIndex (st : UniqueJSONStrings) (s : String) :
    Nat × UniqueJSONStrings :=
  let count := st.mStringHashToIndexMap.length
  let h := hashString s
  match lookupHash st.mStringHashToIndexMap h with
  | some i => (i, st)
  | none =>
    (count, ⟨st.mStringTableWriter ++ [s],
             st.mStringHashToIndexMap ++ [(h, count)]⟩)

/-- Well-formedness of the interner state: the map's values are
exactly the positions 0, 1, ... in insertion order, and the string
table and the map have grown in lockstep.  Holds for the empty state
and is preserved by GetOrAddIndex. -/
def UniqueJSONStrings.WF (st : UniqueJSONStrings) : Prop :=
  st.mStringHashToIndexMap.map Prod.snd =
    List.range st.mStringHashToIndexMap.length ∧
  st.mStringTableWriter.length = st.mStringHashToIndexMap.length

/-! ## JIT frame info (JITFrameInfoForBufferRange, JITFrameInfo)

Header lines 150-235. -/

/-- JITFrameKey: canonical code address plus inline depth (header
lines 156-167). -/
structure JITFrameKey where
  mCanonicalAddress : Nat
  mDepth : Nat
deriving DecidableEq, Repr

/-- One range of JIT frame information: the half-open buffer-position
window [mRangeStart, mRangeEnd), the map from JIT address to its
frame keys, and the map from frame key to pre-rendered frame JSON
(header lines 150-193; hash maps modelled as association lists). -/
structure JITFrameInfoForBufferRange where
  mRangeStart : Nat
  mRangeEnd : Nat
  mJITAddressToJITFramesMap : List (Nat × List JITFrameKey)
  mJITFrameToFrameJSONMap : List (JITFrameKey × String)
deriving DecidableEq, Repr

/-- JITFrameInfo holds the ranges, sorted by buffer position and
non-overlapping (header lines 197-235; the string table member is
irrelevant to the verified claims). -/
structure JITFrameInfo where
  mRanges : List JITFrameInfoForBufferRange
deriving DecidableEq, Repr

/-- JITFrameInfo::HasExpired (header lines 217-224): true when there
are no ranges, otherwise whether the last range's end is at or before
the current buffer range start. -/
def HasExpired (info : JITFrameInfo) (aCurrentBufferRangeStart : Nat) : Bool :=
  match info.mRanges.getLast? with
  | none => true
  | some r => decide (r.mRangeEnd ≤ aCurrentBufferRangeStart)

/-! ## Stack/frame deduplicator (class UniqueStacks)

Header lines 237-401. -/

/-- UniqueStacks::FrameKey::NormalFrameData (header lines 261-269).
nsCString is modelled as String, Maybe as Option; the category pair
enum value as its numeric Nat. -/
structure NormalFrameData where
  mLocation : String
  mRelevantForJS : Bool
  mLine : Option Nat
  mColumn : Option Nat
  mCategoryPair : Option Nat
deriving DecidableEq, Repr

/-- UniqueStacks::FrameKey::JITFrameData (header lines 270-276). -/
structure JITFrameData where
  mCanonicalAddress : Nat
  mDepth : Nat
  mRangeIndex : Nat
deriving DecidableEq, Repr

/-- UniqueStacks::FrameKey: a Variant of the two shapes (header
line 277). -/
inductive FrameKey where
  | normal (d : NormalFrameData)
  | jit (d : JITFrameData)
deriving DecidableEq, Repr

/-- NormalFrameData::operator==, field by field (declared header
line 262; body modelled from the spec: equality is structural,
nsCString comparison is content comparison). -/
def normalFrameDataEq (a b : NormalFrameData) : Bool :=
  a.mLocation == b.mLocation && a.mRelevantForJS == b.mRelevantForJS &&
    a.mLine == b.mLine && a.mColumn == b.mColumn &&
    a.mCategoryPair == b.mCategoryPair

/-- JITFrameData::operator==, field by field (declared header
line 271; body modelled from the spec). -/
def jitFrameDataEq (a b : JITFrameData) : Bool :=
  a.mCanonicalAddress == b.mCanonicalAddress && a.mDepth == b.mDepth &&
    a.mRangeIndex == b.mRangeIndex

/-- FrameKey::operator== (header lines 257-259): mData == mData,
i.e. same Variant alternative with equal contents. -/
def frameKeyEq : FrameKey → FrameKey → Bool
  | .normal a, .normal b => normalFrameDataEq a b
  | .jit a, .jit b => jitFrameDataEq a b
  | _, _ => false

/-- UniqueStacks::FrameKeyHasher::hash (header lines 283-311):
branch on the variant; for normal data fold in the location's string
hash when non-empty, the relevance flag, and line, column and
category when present; for JIT data fold in address, depth and range
index. -/
def FrameKeyHasher.hash (aLookup : FrameKey) : Nat :=
  match aLookup with
  | .normal data =>
    let h0 : Nat := 0
    let h1 := if data.mLocation.isEmpty then h0
              else addU32ToHash h0 (hashString data.mLocation)
    let h2 := addU32ToHash h1 (cond data.mRelevantForJS 1 0)
    let h3 := match data.mLine with
              | some l => addU32ToHash h2 l
              | none => h2
    let h4 := match data.mColumn with
              | some c => addU32ToHash h3 c
              | none => h3
    match data.mCategoryPair with
    | some cp => addU32ToHash h4 cp
    | none => h4
  | .jit data =>
    addU32ToHash (addU32ToHash (addPtrToHash 0 data.mCanonicalAddress)
        data.mDepth)
      data.mRangeIndex

/-- UniqueStacks::StackKey (header lines 322-344): optional parent
stack index, frame index, and the cached hash. -/
structure StackKey where
  mPrefixStackIndex : Option Nat
  mFrameIndex : Nat
  mHash : Nat
deriving DecidableEq, Repr

/-- The StackKey root constructor (header lines 326-327): no parent,
hash = HashGeneric(frame). -/
def StackKey.ofFrame (aFrame : Nat) : StackKey :=
  ⟨none, aFrame, hashGeneric aFrame⟩

/-- The StackKey child constructor (header lines 329-333): parent
index, frame index, hash = AddToHash(parent hash, frame). -/
def StackKey.ofAppended (par : StackKey) (aPrefixStackIndex aFrame : Nat) :
    StackKey :=
  ⟨some aPrefixStackIndex, aFrame, addU32ToHash par.mHash aFrame⟩

/-- StackKey::operator== (header lines 337-340): compares the parent
index and the frame index; the cached hash does not participate. -/
def stackKeyEq (a b : StackKey) : Bool :=
  a.mPrefixStackIndex == b.mPrefixStackIndex && a.mFrameIndex == b.mFrameIndex

/-- UniqueStacks state: the frame table and stack table.  Each C++
HashMap<Key, uint32_t> together with its table writer is modelled as
the list of keys in insertion order, a key's index being its
position (GetOrAdd* always pairs the map insert with the next dense
index and a streamed table row). -/
structure UniqueStacks where
  mFrameToIndexMap : List FrameKey
  mStackToIndexMap : List StackKey
  mJITInfoRanges : List JITFrameInfoForBufferRange
deriving Repr

/-- First position of a key under the given match function (the
HashMap lookup made deterministic: earliest inserted entry wins). -/
def idxOfBy {α : Type} (eq : α → α → Bool) : List α → α → Option Nat
  | [], _ => none
  | x :: xs, k => if eq x k then some 0 else (idxOfBy eq xs k).map (· + 1)

/-- Canonicalize through a table: return the index of an existing
matching entry, or append the key at the next index. -/
def getOrAddBy {α : Type} (eq : α → α → Bool) (tbl : List α) (k : α) :
    Nat × List α :=
  match idxOfBy eq tbl k with
  | some i => (i, tbl)
  | none => (tbl.length, tbl ++ [k])

/-- Modelled from the spec: the body of
UniqueStacks::GetOrAddFrameIndex lives in ProfileBufferEntry.cpp, not
under the given sources.  Per the spec it canonicalizes the frame key
through mFrameToIndexMap (structural hash and structural equality,
header line 395), streaming a new frame-table row and assigning the
next dense index on first sight. -/
def GetOrAddFrameIndex (us : UniqueStacks) (aFrame : FrameKey) :
    Nat × UniqueStacks :=
  let r := getOrAddBy frameKeyEq us.mFrameToIndexMap aFrame
  (r.1, { us with mFrameToIndexMap := r.2 })

/-- Modelled from the spec: the body of
UniqueStacks::GetOrAddStackIndex lives in ProfileBufferEntry.cpp, not
under the given sources.  Same canonicalization pattern over
mStackToIndexMap (header line 398) with StackKey equality. -/
def GetOrAddStackIndex (us : UniqueStacks) (aStack : StackKey) :
    Nat × UniqueStacks :=
  let r := getOrAddBy stackKeyEq us.mStackToIndexMap aStack
  (r.1, { us with mStackToIndexMap := r.2 })

/-- Modelled from the spec: the body of UniqueStacks::BeginStack
lives in ProfileBufferEntry.cpp, not under the given sources.  Per
the spec it returns a root StackKey built from the frame's
canonical index. -/
def BeginStack (us : UniqueStacks) (aFrame : FrameKey) :
    StackKey × UniqueStacks :=
  let r := GetOrAddFrameIndex us aFrame
  (StackKey.ofFrame r.1, r.2)

/-- Modelled from the spec: the body of UniqueStacks::AppendFrame
lives in ProfileBufferEntry.cpp, not under the given sources.  Per
the spec it builds the child StackKey from the parent key, the
parent's canonical stack index and the new frame's canonical frame
index, through the StackKey child constructor (so the hash is
AddToHash(parent hash, frame index)).  The two GetOrAdd calls touch
different tables, so their order does not affect the result. -/
def AppendFrame (us : UniqueStacks) (aStack : StackKey) (aFrame : FrameKey) :
    StackKey × UniqueStacks :=
  let rs := GetOrAddStackIndex us aStack
  let rf := GetOrAddFrameIndex rs.2 aFrame
  (StackKey.ofAppended aStack rs.1 rf.1, rf.2)

/-- First range (with its index) whose half-open window
[mRangeStart, mRangeEnd) contains pos. -/
def findCoveringRange :
    List JITFrameInfoForBufferRange → Nat →
      Option (Nat × JITFrameInfoForBufferRange)
  | [], _ => none
  | r :: rs, pos =>
    if r.mRangeStart ≤ pos ∧ pos < r.mRangeEnd then some (0, r)
    else (findCoveringRange rs pos).map (fun p => (p.1 + 1, p.2))

/-- First value in an address-to-frame-keys association list whose
key equals the address. -/
def lookupJITAddress :
    List (Nat × List JITFrameKey) → Nat → Option (List JITFrameKey)
  | [], _ => none
  | p :: ps, a => if p.1 = a then some p.2 else lookupJITAddress ps a

/-- Modelled from the spec: the body of
UniqueStacks::LookupFramesForJITAddressFromBufferPos lives in
ProfileBufferEntry.cpp, not under the given sources.  Per the spec it
locates the range of mJITInfoRanges covering the buffer position (if
any), looks the JIT address up in that range's address map, and
returns the registered frame keys as JIT FrameKeys carrying the
owning range's index; when no range covers the position, or the
address is not registered in the covering range, the result is
"not found" (none), a valid non-error outcome. -/
def LookupFramesForJITAddressFromBufferPos (us : UniqueStacks)
    (aJITAddress : Nat) (aBufferPosition : Nat) : Option (List FrameKey) :=
  match findCoveringRange us.mJITInfoRanges aBufferPosition with
  | none => none
  | some (i, r) =>
    match lookupJITAddress r.mJITAddressToJITFramesMap aJITAddress with
    | none => none
    | some keys =>
      some (keys.map fun jk => FrameKey.jit ⟨jk.mCanonicalAddress, jk.mDepth, i⟩)

/-! ## Decrypt throughput limiter (DecryptThroughputLimit.h)

Lines 26-75.  TimeStamp and TimeDuration are modelled as exact
rationals (seconds); TimeStamp::Now() becomes an explicit `now`
parameter; promise resolution becomes an explicit result value. -/

/-- DecryptedJob (header lines 86-89). -/
structure DecryptedJob where
  mTimestamp : ℚ
  mSampleDuration : ℚ
deriving DecidableEq, Repr

/-- The deque of recent decrypt jobs, front at the head (header
line 90). -/
structure DecryptThroughputLimit where
  mDecrypts : List DecryptedJob
deriving DecidableEq, Repr

/-- The observable outcome of Throttle: resolve the promise now, or
schedule its resolution at a target time. -/
inductive ThrottleResult where
  | resolveNow
  | scheduleAt (target : ℚ)
deriving DecidableEq, Repr

/-- DecryptThroughputLimit::Throttle (lines 26-75): pop expired jobs
from the front of the deque (those with timestamp before now minus
the 0.1 s window), accumulate the sample's duration plus all
remaining jobs' durations; if that is strictly below the 0.2 s max
throughput, record the job and resolve immediately, otherwise
schedule resolution at now + (accumulated - 0.2) and record the job
only when the scheduled closure later fires. -/
def Throttle (lim : DecryptThroughputLimit) (now : ℚ)
    (sampleDuration : ℚ) : ThrottleResult × DecryptThroughputLimit :=
  let WindowSize : ℚ := 1 / 10
  let MaxThroughput : ℚ := 1 / 5
  let remaining :=
    lim.mDecrypts.dropWhile (fun j => decide (j.mTimestamp < now - WindowSize))
  let durationDecrypted :=
    remaining.foldl (fun d j => d + j.mSampleDuration) sampleDuration
  if durationDecrypted < MaxThroughput then
    (.resolveNow, ⟨remaining ++ [⟨now, sampleDuration⟩]⟩)
  else
    (.scheduleAt (now + (durationDecrypted - MaxThroughput)), ⟨remaining⟩)

/-! ## Helper lemmas -/

theorem toLEBytes_length (k n : Nat) : (toLEBytes k n).length = k := by
  induction k generalizing n with
  | zero => rfl
  | succ k ih => simp [toLEBytes, ih]

theorem fromLEBytes_toLEBytes (k n : Nat) (h : n < 256 ^ k) :
    fromLEBytes (toLEBytes k n) = n := by
  induction k generalizing n with
  | zero => simp [toLEBytes, fromLEBytes]; omega
  | succ k ih =>
    have hdiv : n / 256 < 256 ^ k := by
      rw [Nat.div_lt_iff_lt_mul (by norm_num)]
      calc n < 256 ^ (k + 1) := h
        _ = 256 ^ k * 256 := by ring
    simp [toLEBytes, fromLEBytes, ih _ hdiv]
    omega

/-- An example JIT range: the window [100, 200) with address 0xABC
resolving to the single frame key (0xABC, depth 0). -/
def exampleRange : JITFrameInfoForBufferRange :=
  ⟨100, 200, [(0xABC, [⟨0xABC, 0⟩])], [(⟨0xABC, 0⟩, "jitFrameJSON")]⟩

/-- C2: JITFrameInfo::HasExpired(h) returns true iff the resolver
holds no ranges or the last range's mRangeEnd is at most h; for the
single range [100, 200), HasExpired(50) is false and HasExpired(200)
is true. -/
theorem hasExpired_iff_no_range_or_last_end_le :
    (∀ (info : JITFrameInfo) (h : Nat),
        HasExpired info h = true ↔
          info.mRanges = [] ∨
            ∃ r, info.mRanges.getLast? = some r ∧ r.mRangeEnd ≤ h) ∧
    HasExpired ⟨[exampleRange]⟩ 50 = false ∧
    HasExpired ⟨[exampleRange]⟩ 200 = true := by
  refine ⟨fun info h => ?_, by decide, by decide⟩
  unfold HasExpired
  cases hlast : info.mRanges.getLast? with
  | none =>
    simp only [List.getLast?_eq_none_iff] at hlast
    simp [hlast]
  | some r =>
    have : info.mRanges ≠ [] := by
      intro hnil
      rw [hnil] at hlast
      exact Option.noConfusion hlast
    simp [hlast, this]

/-- C3: a ProfileBufferEntry occupies exactly 9 serialized bytes for
every Kind: one discriminant byte plus an 8-byte payload, identical
for every variant (the static_assert at header line 116). -/
theorem entry_serialized_size_is_nine (k : Kind) (v : PayloadValue)
    (e : ProfileBufferEntry) (hc : construct k v = some e)
    (hv : ValidValue v) :
    (serializeEntry e).length = 9 ∧ e.mStorage.length = 8 := by
  unfold construct at hc
  split at hc
  · simp only [Option.some.injEq] at hc
    subst hc
    refine ⟨?_, ?_⟩ <;>
      cases v <;>
        simp_all [encodeValue, toLEBytes_length, ValidValue, serializeEntry]
  · exact absurd hc (by simp)

/-- Witness for C3 at Kind Time with payload bit pattern 3. -/
theorem entry_serialized_size_is_nine_witness :
    (serializeEntry ⟨Kind.Time, encodeValue (PayloadValue.vDouble 3)⟩).length
      = 9 :=
  (entry_serialized_size_is_nine Kind.Time (PayloadValue.vDouble 3)
    ⟨Kind.Time, encodeValue (PayloadValue.vDouble 3)⟩ rfl (by decide)).1

/-- C7: the StackKey produced by AppendFrame carries the hash
AddToHash(parent hash, new frame's index), derived from the parent's
cached hash, and references the parent's assigned stack index. -/
theorem appendFrame_hash_incremental (us : UniqueStacks) (sk : StackKey)
    (f : FrameKey) :
    (AppendFrame us sk f).1.mHash =
        addU32ToHash sk.mHash ((GetOrAddFrameIndex us f).1) ∧
      (AppendFrame us sk f).1.mPrefixStackIndex =
        some ((GetOrAddStackIndex us sk).1) ∧
      (AppendFrame us sk f).1.mFrameIndex = (GetOrAddFrameIndex us f).1 :=
  ⟨rfl, rfl, rfl⟩

/-- C4: constructing an entry with a value of its Kind's associated
type and reading it back through the matching accessor returns the
original value exactly; every mismatched accessor fails (none)
rather than returning garbage. -/
theorem entry_codec_roundtrip (k : Kind) (v : PayloadValue)
    (e : ProfileBufferEntry) (hc : construct k v = some e)
    (hv : ValidValue v) :
    readBack (payloadTy v) e = some v ∧
      ∀ t, t ≠ payloadTy v → readBack t e = none := by
  unfold construct at hc
  split at hc
  case isFalse => exact absurd hc (by simp)
  case isTrue hty =>
  simp only [Option.some.injEq] at hc
  subst hc
  constructor
  · cases v with
    | vInt i =>
      obtain ⟨hlo, hhi⟩ := hv
      simp only [payloadTy] at hty ⊢
      simp only [readBack, GetInt]
      rw [if_pos hty]
      have htake :
          (encodeValue (.vInt i)).take 4 = toLEBytes 4 (i % 2 ^ 32).toNat := by
        have hl := toLEBytes_length 4 (i % 2 ^ 32).toNat
        simp only [encodeValue]
        exact List.take_left' hl
      have hbound : (i % 2 ^ 32).toNat < 256 ^ 4 := by
        have : (256 : Nat) ^ 4 = 2 ^ 32 := by norm_num
        rw [this]
        omega
      simp only [htake, fromLEBytes_toLEBytes 4 _ hbound,
        Option.map_some', Option.some.injEq, PayloadValue.vInt.injEq]
      split <;> omega
    | vInt64 i =>
      obtain ⟨hlo, hhi⟩ := hv
      simp only [payloadTy] at hty ⊢
      simp only [readBack, GetInt64]
      rw [if_pos hty]
      have hbound : (i % 2 ^ 64).toNat < 256 ^ 8 := by
        have : (256 : Nat) ^ 8 = 2 ^ 64 := by norm_num
        rw [this]
        omega
      simp only [encodeValue, fromLEBytes_toLEBytes 8 _ hbound,
        Option.map_some', Option.some.injEq, PayloadValue.vInt64.injEq]
      split <;> omega
    | vDouble n =>
      simp only [payloadTy] at hty ⊢
      simp only [readBack, GetDouble]
      rw [if_pos hty]
      have hbound : n < 256 ^ 8 := by
        have hn : n < 2 ^ 64 := hv
        norm_num at hn ⊢
        omega
      simp only [encodeValue, fromLEBytes_toLEBytes 8 _ hbound,
        Option.map_some']
    | vStaticStr p =>
      simp only [payloadTy] at hty ⊢
      simp only [readBack, GetString]
      rw [if_pos hty]
      have hbound : p < 256 ^ 8 := by
        have hn : p < 2 ^ 64 := hv
        norm_num at hn ⊢
        omega
      simp only [encodeValue, fromLEBytes_toLEBytes 8 _ hbound,
        Option.map_some']
    | vUint64 n =>
      simp only [payloadTy] at hty ⊢
      simp only [readBack, GetUint64]
      rw [if_pos hty]
      have hbound : n < 256 ^ 8 := by
        have hn : n < 2 ^ 64 := hv
        norm_num at hn ⊢
        omega
      simp only [encodeValue, fromLEBytes_toLEBytes 8 _ hbound,
        Option.map_some']
    | vPtr p =>
      simp only [payloadTy] at hty ⊢
      simp only [readBack, GetPtr]
      rw [if_pos hty]
      have hbound : p < 256 ^ 8 := by
        have hn : p < 2 ^ 64 := hv
        norm_num at hn ⊢
        omega
      simp only [encodeValue, fromLEBytes_toLEBytes 8 _ hbound,
        Option.map_some']
    | vMarkerPtr p =>
      simp only [payloadTy] at hty ⊢
      simp only [readBack, GetMarker]
      rw [if_pos hty]
      have hbound : p < 256 ^ 8 := by
        have hn : p < 2 ^ 64 := hv
        norm_num at hn ⊢
        omega
      simp only [encodeValue, fromLEBytes_toLEBytes 8 _ hbound,
        Option.map_some']
    | vChars bs =>
      simp only [payloadTy] at hty ⊢
      simp only [readBack, CopyCharsInto]
      rw [if_pos hty]
      simp [encodeValue]
  · intro t hne
    cases t <;>
      · simp only [readBack, GetInt, GetDouble, GetString, GetUint64,
          CopyCharsInto, GetPtr, GetMarker, GetInt64, hty]
        rw [if_neg (by simp; exact fun h => hne h.symm)]
        simp

/-- Witness for C4: a Time entry carrying double bit pattern 7 reads
back exactly through GetDouble and fails through GetInt. -/
theorem entry_codec_roundtrip_witness :
    readBack PayloadTy.tyDouble
        ⟨Kind.Time, encodeValue (PayloadValue.vDouble 7)⟩ =
      some (PayloadValue.vDouble 7) ∧
    readBack PayloadTy.tyInt
        ⟨Kind.Time, encodeValue (PayloadValue.vDouble 7)⟩ = none := by
  have h := entry_codec_roundtrip Kind.Time (PayloadValue.vDouble 7)
    ⟨Kind.Time, encodeValue (PayloadValue.vDouble 7)⟩ rfl (by decide)
  exact ⟨h.1, h.2 PayloadTy.tyInt (by decide)⟩

/-! ### Generic canonicalization lemmas

Shared facts about idxOfBy / getOrAddBy under a match function that
agrees with equality, as FrameKeyHasher::match does (it compares with
operator==, which is structural). -/

theorem idxOfBy_some_get {α : Type} {eq : α → α → Bool}
    (heq : ∀ a b, eq a b = true ↔ a = b) {l : List α} {k : α} {i : Nat}
    (h : idxOfBy eq l k = some i) : l[i]? = some k := by
  induction l generalizing i with
  | nil => simp [idxOfBy] at h
  | cons x xs ih =>
    simp only [idxOfBy] at h
    split at h
    case isTrue hx =>
      simp only [Option.some.injEq] at h
      subst h
      simp [(heq x k).mp hx]
    case isFalse hx =>
      cases hj : idxOfBy eq xs k with
      | none => rw [hj] at h; simp at h
      | some j =>
        rw [hj] at h
        simp only [Option.map_some', Option.some.injEq] at h
        subst h
        simpa using ih hj

theorem idxOfBy_some_lt {α : Type} {eq : α → α → Bool}
    (heq : ∀ a b, eq a b = true ↔ a = b) {l : List α} {k : α} {i : Nat}
    (h : idxOfBy eq l k = some i) : i < l.length := by
  have := idxOfBy_some_get heq h
  exact (List.getElem?_eq_some.mp this).1

theorem idxOfBy_append_self {α : Type} {eq : α → α → Bool}
    (hrefl : ∀ a, eq a a = true) {l : List α} {k : α}
    (h : idxOfBy eq l k = none) :
    idxOfBy eq (l ++ [k]) k = some l.length := by
  induction l with
  | nil => simp [idxOfBy, hrefl]
  | cons x xs ih =>
    simp only [idxOfBy] at h
    split at h
    case isTrue => simp at h
    case isFalse hx =>
      have hxs : idxOfBy eq xs k = none := by
        cases hj : idxOfBy eq xs k with
        | none => rfl
        | some j => rw [hj] at h; simp at h
      simp [idxOfBy, hx, ih hxs]

theorem getOrAddBy_get {α : Type} (eq : α → α → Bool)
    (heq : ∀ a b, eq a b = true ↔ a = b) (l : List α) (k : α) :
    (getOrAddBy eq l k).2[(getOrAddBy eq l k).1]? = some k := by
  unfold getOrAddBy
  cases hi : idxOfBy eq l k with
  | some i => simpa using idxOfBy_some_get heq hi
  | none => simp

theorem getOrAddBy_stable {α : Type} (eq : α → α → Bool)
    (heq : ∀ a b, eq a b = true ↔ a = b) (l : List α) (k k' : α)
    (hkk : eq k k' = true) :
    getOrAddBy eq (getOrAddBy eq l k).2 k' =
      ((getOrAddBy eq l k).1, (getOrAddBy eq l k).2) := by
  have hk : k = k' := (heq k k').mp hkk
  subst hk
  unfold getOrAddBy
  cases hi : idxOfBy eq l k with
  | some i => simp [hi]
  | none =>
    have hrefl : ∀ a, eq a a = true := fun a => (heq a a).mpr rfl
    simp [hi, idxOfBy_append_self hrefl hi]

theorem getOrAddBy_distinct {α : Type} (eq : α → α → Bool)
    (heq : ∀ a b, eq a b = true ↔ a = b) (l : List α) (k1 k2 : α)
    (h12 : eq k1 k2 = false) :
    (getOrAddBy eq (getOrAddBy eq l k1).2 k2).1 ≠ (getOrAddBy eq l k1).1 := by
  have hget : (getOrAddBy eq l k1).2[(getOrAddBy eq l k1).1]? = some k1 :=
    getOrAddBy_get eq heq l k1
  have hlt : (getOrAddBy eq l k1).1 < (getOrAddBy eq l k1).2.length :=
    (List.getElem?_eq_some.mp hget).1
  intro hcontra
  cases hi : idxOfBy eq (getOrAddBy eq l k1).2 k2 with
  | some i2 =>
    rw [getOrAddBy, hi] at hcontra
    simp only at hcontra
    have hk2 : (getOrAddBy eq l k1).2[i2]? = some k2 := idxOfBy_some_get heq hi
    rw [hcontra, hget] at hk2
    simp only [Option.some.injEq] at hk2
    subst hk2
    rw [(heq k1 k1).mpr rfl] at h12
    exact Bool.noConfusion h12
  | none =>
    rw [getOrAddBy, hi] at hcontra
    simp only at hcontra
    omega

/-- FrameKey::operator== is structural equality: two frame keys
compare equal iff they are the same variant with identical fields. -/
theorem frameKeyEq_iff (a b : FrameKey) : frameKeyEq a b = true ↔ a = b := by
  cases a with
  | normal d1 =>
    cases b with
    | normal d2 =>
      cases d1; cases d2
      simp [frameKeyEq, normalFrameDataEq, and_assoc]
    | jit d2 => simp [frameKeyEq]
  | jit d1 =>
    cases b with
    | normal d2 => simp [frameKeyEq]
    | jit d2 =>
      cases d1; cases d2
      simp [frameKeyEq, jitFrameDataEq, and_assoc]

/-- C5: GetOrAddFrameIndex applied to structurally equal FrameKeys
returns the same index and does not add a frame-table row on the
second call; applied sequentially to two FrameKeys differing in any
field (including the variant) it returns distinct indices. -/
theorem getOrAddFrameIndex_dedup (us : UniqueStacks) (k k' k1 k2 : FrameKey) :
    (frameKeyEq k k' = true →
      (GetOrAddFrameIndex (GetOrAddFrameIndex us k).2 k').1 =
          (GetOrAddFrameIndex us k).1 ∧
        (GetOrAddFrameIndex (GetOrAddFrameIndex us k).2 k').2.mFrameToIndexMap =
          (GetOrAddFrameIndex us k).2.mFrameToIndexMap) ∧
    (frameKeyEq k1 k2 = false →
      (GetOrAddFrameIndex (GetOrAddFrameIndex us k1).2 k2).1 ≠
        (GetOrAddFrameIndex us k1).1) := by
  constructor
  · intro hkk
    have h := getOrAddBy_stable frameKeyEq frameKeyEq_iff
      us.mFrameToIndexMap k k' hkk
    constructor
    · simp only [GetOrAddFrameIndex]
      rw [h]
    · simp only [GetOrAddFrameIndex]
      rw [h]
  · intro h12
    have h := getOrAddBy_distinct frameKeyEq frameKeyEq_iff
      us.mFrameToIndexMap k1 k2 h12
    simpa only [GetOrAddFrameIndex] using h

/-- Witness for C5: a normal frame key interned twice keeps index 0
and a one-element table; a JIT key then gets the distinct index 1. -/
theorem getOrAddFrameIndex_dedup_witness :
    ((GetOrAddFrameIndex
        (GetOrAddFrameIndex ⟨[], [], []⟩
          (FrameKey.normal ⟨"foo.js", false, none, none, none⟩)).2
        (FrameKey.normal ⟨"foo.js", false, none, none, none⟩)).1 =
      (GetOrAddFrameIndex ⟨[], [], []⟩
        (FrameKey.normal ⟨"foo.js", false, none, none, none⟩)).1) ∧
    ((GetOrAddFrameIndex
        (GetOrAddFrameIndex ⟨[], [], []⟩
          (FrameKey.normal ⟨"foo.js", false, none, none, none⟩)).2
        (FrameKey.jit ⟨0xABC, 0, 0⟩)).1 ≠
      (GetOrAddFrameIndex ⟨[], [], []⟩
        (FrameKey.normal ⟨"foo.js", false, none, none, none⟩)).1) := by
  have h := getOrAddFrameIndex_dedup ⟨[], [], []⟩
    (FrameKey.normal ⟨"foo.js", false, none, none, none⟩)
    (FrameKey.normal ⟨"foo.js", false, none, none, none⟩)
    (FrameKey.normal ⟨"foo.js", false, none, none, none⟩)
    (FrameKey.jit ⟨0xABC, 0, 0⟩)
  exact ⟨(h.1 (by decide)).1, h.2 (by decide)⟩

/-- C9: FrameKeyHasher::hash is consistent with FrameKey structural
equality: keys that compare equal through operator== hash equally,
for both the Normal and the JIT variant. -/
theorem frameKeyHasher_consistent_with_eq (k1 k2 : FrameKey)
    (h : frameKeyEq k1 k2 = true) :
    FrameKeyHasher.hash k1 = FrameKeyHasher.hash k2 := by
  rw [(frameKeyEq_iff k1 k2).mp h]

/-- Witness for C9 at a pair of structurally equal normal frame
keys. -/
theorem frameKeyHasher_consistent_with_eq_witness :
    FrameKeyHasher.hash
        (FrameKey.normal ⟨"foo.js", true, some 3, none, some 5⟩) =
      FrameKeyHasher.hash
        (FrameKey.normal ⟨"foo.js", true, some 3, none, some 5⟩) :=
  frameKeyHasher_consistent_with_eq
    (FrameKey.normal ⟨"foo.js", true, some 3, none, some 5⟩)
    (FrameKey.normal ⟨"foo.js", true, some 3, none, some 5⟩) (by decide)

/-- The stack-trie scenario of the spec: build the stacks A = [f1],
B = [f1, f2] and C = [f1, f3] through BeginStack / AppendFrame and
canonicalize each through GetOrAddStackIndex, starting from an empty
deduplicator. -/
def buildThreeStacks (f1 f2 f3 : FrameKey) : UniqueStacks :=
  let us0 : UniqueStacks := ⟨[], [], []⟩
  let rA := BeginStack us0 f1
  let rA2 := GetOrAddStackIndex rA.2 rA.1
  let rB := BeginStack rA2.2 f1
  let rB2 := AppendFrame rB.2 rB.1 f2
  let rB3 := GetOrAddStackIndex rB2.2 rB2.1
  let rC := BeginStack rB3.2 f1
  let rC2 := AppendFrame rC.2 rC.1 f3
  let rC3 := GetOrAddStackIndex rC2.2 rC2.1
  rC3.2

/-- C6: after interning A = [f1], B = [f1, f2], C = [f1, f3] (f1, f2,
f3 pairwise distinct), the stack table holds exactly 3 rows — the
root f1 row and the two child rows both sharing it as their common
parent — and the frame table holds exactly f1, f2, f3. -/
theorem stack_trie_shares_common_root (f1 f2 f3 : FrameKey)
    (h12 : frameKeyEq f1 f2 = false) (h13 : frameKeyEq f1 f3 = false)
    (h23 : frameKeyEq f2 f3 = false) :
    (buildThreeStacks f1 f2 f3).mStackToIndexMap.map
        (fun sk => (sk.mPrefixStackIndex, sk.mFrameIndex)) =
      [(none, 0), (some 0, 1), (some 0, 2)] ∧
    (buildThreeStacks f1 f2 f3).mStackToIndexMap.length = 3 ∧
    (buildThreeStacks f1 f2 f3).mFrameToIndexMap = [f1, f2, f3] := by
  have h11 : frameKeyEq f1 f1 = true := (frameKeyEq_iff f1 f1).mpr rfl
  refine ⟨?_, ?_, ?_⟩ <;>
    simp [buildThreeStacks, BeginStack, AppendFrame, GetOrAddStackIndex,
      GetOrAddFrameIndex, getOrAddBy, idxOfBy, stackKeyEq,
      StackKey.ofFrame, StackKey.ofAppended, h11, h12, h13, h23]

/-- Witness for C6 at three concrete distinct normal frames. -/
theorem stack_trie_shares_common_root_witness :
    (buildThreeStacks (FrameKey.normal ⟨"f1", false, none, none, none⟩)
        (FrameKey.normal ⟨"f2", false, none, none, none⟩)
        (FrameKey.normal ⟨"f3", false, none, none, none⟩)).mStackToIndexMap.map
        (fun sk => (sk.mPrefixStackIndex, sk.mFrameIndex)) =
      [(none, 0), (some 0, 1), (some 0, 2)] :=
  (stack_trie_shares_common_root
    (FrameKey.normal ⟨"f1", false, none, none, none⟩)
    (FrameKey.normal ⟨"f2", false, none, none, none⟩)
    (FrameKey.normal ⟨"f3", false, none, none, none⟩)
    (by decide) (by decide) (by decide)).1

theorem findCoveringRange_none (rs : List JITFrameInfoForBufferRange)
    (pos : Nat)
    (h : ∀ r ∈ rs, ¬(r.mRangeStart ≤ pos ∧ pos < r.mRangeEnd)) :
    findCoveringRange rs pos = none := by
  induction rs with
  | nil => rfl
  | cons x xs ih =>
    have hx := h x (List.mem_cons_self x xs)
    have hxs := ih fun r hr => h r (List.mem_cons_of_mem x hr)
    simp [findCoveringRange, hx, hxs]

theorem findCoveringRange_at (rs : List JITFrameInfoForBufferRange)
    (pos i : Nat) (r : JITFrameInfoForBufferRange)
    (hsort : rs.Pairwise (fun a b => a.mRangeEnd ≤ b.mRangeStart))
    (hi : rs[i]? = some r) (h1 : r.mRangeStart ≤ pos)
    (h2 : pos < r.mRangeEnd) :
    findCoveringRange rs pos = some (i, r) := by
  induction rs generalizing i with
  | nil => simp at hi
  | cons x xs ih =>
    rcases List.pairwise_cons.mp hsort with ⟨hx, hxs⟩
    cases i with
    | zero =>
      simp only [List.getElem?_cons_zero, Option.some.injEq] at hi
      subst hi
      simp [findCoveringRange, h1, h2]
    | succ j =>
      simp only [List.getElem?_cons_succ] at hi
      have hrmem : r ∈ xs := by
        rcases List.getElem?_eq_some.mp hi with ⟨hlt, hget⟩
        exact hget ▸ List.getElem_mem hlt
      have hxend : x.mRangeEnd ≤ r.mRangeStart := hx r hrmem
      have hnc : ¬(x.mRangeStart ≤ pos ∧ pos < x.mRangeEnd) := by
        intro hcontra
        omega
      simp [findCoveringRange, hnc, ih j hxs hi]

/-- C8: looking a JIT address up at a buffer position outside every
registered range's half-open window yields "not found" (none), even
if the address is registered in some non-covering range; at a
position covered by a range (the ranges being non-overlapping and
sorted, their documented invariant) in which the address is
registered, the lookup returns exactly the frame keys registered for
the address in that range, tagged with the owning range's index. -/
theorem lookupFramesForJITAddress_window (us : UniqueStacks)
    (addr pos : Nat) :
    ((∀ r ∈ us.mJITInfoRanges,
          ¬(r.mRangeStart ≤ pos ∧ pos < r.mRangeEnd)) →
        LookupFramesForJITAddressFromBufferPos us addr pos = none) ∧
    (∀ (i : Nat) (r : JITFrameInfoForBufferRange)
        (keys : List JITFrameKey),
        us.mJITInfoRanges.Pairwise
            (fun a b => a.mRangeEnd ≤ b.mRangeStart) →
        us.mJITInfoRanges[i]? = some r →
        r.mRangeStart ≤ pos → pos < r.mRangeEnd →
        lookupJITAddress r.mJITAddressToJITFramesMap addr = some keys →
        LookupFramesForJITAddressFromBufferPos us addr pos =
          some (keys.map
            fun jk => FrameKey.jit ⟨jk.mCanonicalAddress, jk.mDepth, i⟩)) := by
  constructor
  · intro h
    unfold LookupFramesForJITAddressFromBufferPos
    rw [findCoveringRange_none us.mJITInfoRanges pos h]
  · intro i r keys hsort hi h1 h2 hkeys
    unfold LookupFramesForJITAddressFromBufferPos
    rw [findCoveringRange_at us.mJITInfoRanges pos i r hsort hi h1 h2]
    simp [hkeys]

/-- Witness for C8: with the single range [100, 200) mapping 0xABC to
one frame key, the lookup of 0xABC at position 150 returns that key
(tagged with range index 0) and at position 250 returns none. -/
theorem lookupFramesForJITAddress_window_witness :
    LookupFramesForJITAddressFromBufferPos ⟨[], [], [exampleRange]⟩
        0xABC 250 = none ∧
      LookupFramesForJITAddressFromBufferPos ⟨[], [], [exampleRange]⟩
        0xABC 150 = some [FrameKey.jit ⟨0xABC, 0, 0⟩] := by
  have h := lookupFramesForJITAddress_window ⟨[], [], [exampleRange]⟩ 0xABC
  exact ⟨(h 250).1 (by decide),
    (h 150).2 0 exampleRange [⟨0xABC, 0⟩] (by decide) rfl (by decide)
      (by decide) rfl⟩

/-! ### String interner lemmas -/

theorem lookupHash_append_of_some {m : List (Nat × Nat)} {h i : Nat}
    (hm : lookupHash m h = some i) (l : List (Nat × Nat)) :
    lookupHash (m ++ l) h = some i := by
  induction m with
  | nil => simp [lookupHash] at hm
  | cons p ps ih =>
    simp only [lookupHash] at hm ⊢
    split at hm
    case isTrue hp => simp_all [lookupHash]
    case isFalse hp => simp_all [lookupHash, ih hm]

theorem lookupHash_append_single_eq {m : List (Nat × Nat)} {h c : Nat}
    (hm : lookupHash m h = none) :
    lookupHash (m ++ [(h, c)]) h = some c := by
  induction m with
  | nil => simp [lookupHash]
  | cons p ps ih =>
    simp only [lookupHash] at hm ⊢
    split at hm
    case isTrue => simp at hm
    case isFalse hp => simp_all [lookupHash, ih hm]

theorem lookupHash_append_single_ne {m : List (Nat × Nat)} {h h' c : Nat}
    (hm : lookupHash m h = none) (hne : h' ≠ h) :
    lookupHash (m ++ [(h', c)]) h = none := by
  induction m with
  | nil => simp [lookupHash, hne]
  | cons p ps ih =>
    simp only [lookupHash] at hm ⊢
    split at hm
    case isTrue => simp at hm
    case isFalse hp => simp_all [lookupHash, ih hm]

theorem lookupHash_some_mem {m : List (Nat × Nat)} {h i : Nat}
    (hm : lookupHash m h = some i) : (h, i) ∈ m := by
  induction m with
  | nil => simp [lookupHash] at hm
  | cons p ps ih =>
    simp only [lookupHash] at hm
    split at hm
    case isTrue hp =>
      simp only [Option.some.injEq] at hm
      have hpeq : p = (h, i) := by
        cases p
        simp_all
      rw [hpeq]
      exact List.mem_cons_self _ _
    case isFalse hp => exact List.mem_cons_of_mem p (ih hm)

/-- Under WF, the entry holding value i sits at position i, so its
key is determined by i. -/
theorem wf_mem_getElem {st : UniqueJSONStrings} (hwf : st.WF) {h i : Nat}
    (hm : (h, i) ∈ st.mStringHashToIndexMap) :
    st.mStringHashToIndexMap[i]? = some (h, i) := by
  obtain ⟨hrange, _⟩ := hwf
  rcases List.getElem_of_mem hm with ⟨p, hp, hget⟩
  have h1 : st.mStringHashToIndexMap[p]? = some (h, i) := by
    rw [List.getElem?_eq_getElem hp, hget]
  have h2 : (st.mStringHashToIndexMap.map Prod.snd)[p]? = some i := by
    rw [List.getElem?_map, h1]
    rfl
  have h3 : (st.mStringHashToIndexMap.map Prod.snd)[p]? = some p := by
    rw [hrange]
    exact List.getElem?_range hp
  rw [h2] at h3
  have hip : i = p := by injection h3
  subst hip
  exact h1

/-- Under WF, every index stored in the hash-to-index map is below
the map's size. -/
theorem wf_lookup_lt {st : UniqueJSONStrings} (hwf : st.WF) {h i : Nat}
    (hm : lookupHash st.mStringHashToIndexMap h = some i) :
    i < st.mStringHashToIndexMap.length :=
  (List.getElem?_eq_some.mp (wf_mem_getElem hwf (lookupHash_some_mem hm))).1

/-- Under WF, lookups of distinct hashes return distinct indices. -/
theorem wf_lookup_inj {st : UniqueJSONStrings} (hwf : st.WF)
    {h1 h2 i1 i2 : Nat} (hm1 : lookupHash st.mStringHashToIndexMap h1 = some i1)
    (hm2 : lookupHash st.mStringHashToIndexMap h2 = some i2)
    (hne : h1 ≠ h2) : i1 ≠ i2 := by
  intro hcontra
  subst hcontra
  have g1 := wf_mem_getElem hwf (lookupHash_some_mem hm1)
  have g2 := wf_mem_getElem hwf (lookupHash_some_mem hm2)
  rw [g1] at g2
  simp only [Option.some.injEq, Prod.mk.injEq] at g2
  exact hne g2.1

/-- GetOrAddIndex preserves interner well-formedness: on a fresh hash
it appends the next index (extending the range of assigned indices)
and one string-table element. -/
theorem getOrAddIndex_preserves_wf (st : UniqueJSONStrings) (s : String)
    (hwf : st.WF) : (GetOrAddIndex st s).2.WF := by
  obtain ⟨hrange, hlen⟩ := hwf
  unfold GetOrAddIndex
  cases hl : lookupHash st.mStringHashToIndexMap (hashString s) with
  | some i =>
    simp only [hl]
    exact ⟨hrange, hlen⟩
  | none =>
    simp only [hl]
    refine ⟨?_, ?_⟩
    · simp [List.range_succ, hrange]
    · simp [hlen]

/-- C1 (amended): sequential GetOrAddIndex calls return the same
index exactly when the two strings have the same content hash: equal
strings (hence equal hashes) always share an index, strings with
distinct hashes always get distinct indices, and a string whose hash
is not yet in the map is assigned the next table index (so the Nth
string with a fresh hash gets index N-1); but two distinct strings
whose content hashes collide are conflated to one index, because the
map declared at header line 140 is keyed by the hash alone. -/
theorem getOrAddIndex_interning (st : UniqueJSONStrings) (s1 s2 s : String)
    (hwf : st.WF) :
    (hashString s1 = hashString s2 →
        (GetOrAddIndex (GetOrAddIndex st s1).2 s2).1 =
          (GetOrAddIndex st s1).1) ∧
    (hashString s1 ≠ hashString s2 →
        (GetOrAddIndex (GetOrAddIndex st s1).2 s2).1 ≠
          (GetOrAddIndex st s1).1) ∧
    (lookupHash st.mStringHashToIndexMap (hashString s) = none →
        (GetOrAddIndex st s).1 = st.mStringTableWriter.length ∧
        (GetOrAddIndex st s).2.mStringTableWriter =
          st.mStringTableWriter ++ [s]) := by
  obtain ⟨hrange, hlen⟩ := hwf
  refine ⟨?_, ?_, ?_⟩
  · intro heq
    unfold GetOrAddIndex
    cases hl1 : lookupHash st.mStringHashToIndexMap (hashString s1) with
    | some i1 =>
      have hl2 : lookupHash st.mStringHashToIndexMap (hashString s2) =
          some i1 := by rw [← heq, hl1]
      simp [hl1, hl2]
    | none =>
      have hl2 : lookupHash
          (st.mStringHashToIndexMap ++
            [(hashString s1, st.mStringHashToIndexMap.length)])
          (hashString s2) = some st.mStringHashToIndexMap.length := by
        rw [← heq]
        exact lookupHash_append_single_eq hl1
      simp [hl1, hl2]
  · intro hne
    unfold GetOrAddIndex
    cases hl1 : lookupHash st.mStringHashToIndexMap (hashString s1) with
    | some i1 =>
      cases hl2 : lookupHash st.mStringHashToIndexMap (hashString s2) with
      | some i2 =>
        simp only [hl1, hl2]
        exact (wf_lookup_inj ⟨hrange, hlen⟩ hl2 hl1 (Ne.symm hne))
      | none =>
        have hlt := wf_lookup_lt ⟨hrange, hlen⟩ hl1
        simp only [hl1, hl2]
        omega
    | none =>
      cases hl2 : lookupHash st.mStringHashToIndexMap (hashString s2) with
      | some i2 =>
        have hl2' : lookupHash
            (st.mStringHashToIndexMap ++
              [(hashString s1, st.mStringHashToIndexMap.length)])
            (hashString s2) = some i2 :=
          lookupHash_append_of_some hl2 _
        have hlt := wf_lookup_lt ⟨hrange, hlen⟩ hl2
        simp only [hl1, hl2']
        omega
      | none =>
        have hl2' : lookupHash
            (st.mStringHashToIndexMap ++
              [(hashString s1, st.mStringHashToIndexMap.length)])
            (hashString s2) = none :=
          lookupHash_append_single_ne hl2 hne
        simp only [hl1, hl2']
        simp
  · intro hl
    unfold GetOrAddIndex
    simp [hl, hlen]

/-- Witness for C1 (amended) on an initially empty interner with the
distinct-hash strings "aa" and "bb". -/
theorem getOrAddIndex_interning_witness :
    ((GetOrAddIndex (GetOrAddIndex ⟨[], []⟩ "aa").2 "bb").1 ≠
        (GetOrAddIndex ⟨[], []⟩ "aa").1) ∧
      (GetOrAddIndex ⟨[], []⟩ "aa").1 = 0 := by
  have h := getOrAddIndex_interning ⟨[], []⟩ "aa" "bb" "aa" ⟨rfl, rfl⟩
  exact ⟨h.2.1 (by decide), (h.2.2 (by decide)).1⟩

/-- Counterexample to C1 as stated: the distinct strings "acwjqugw"
and "aobhaglz" have colliding mozilla string hashes, so the interner
— whose map is keyed by the content hash alone, with no full-string
comparison — returns the same index for both. -/
theorem getOrAddIndex_collision_same_index :
    "acwjqugw" ≠ "aobhaglz" ∧
      hashString "acwjqugw" = hashString "aobhaglz" ∧
      (GetOrAddIndex (GetOrAddIndex ⟨[], []⟩ "acwjqugw").2 "aobhaglz").1 =
        (GetOrAddIndex ⟨[], []⟩ "acwjqugw").1 := by
  refine ⟨by decide, by decide, by decide⟩

/-! ### Throttle lemmas -/

theorem foldl_add_durations (l : List DecryptedJob) (a : ℚ) :
    l.foldl (fun d j => d + j.mSampleDuration) a =
      a + (l.map (fun j => j.mSampleDuration)).sum := by
  induction l generalizing a with
  | nil => simp
  | cons x xs ih => simp [ih, add_assoc]

/-- On a deque whose timestamps are non-decreasing (as produced by
pushing at monotone clock readings), popping the expired front equals
filtering for the jobs still inside the window. -/
theorem dropWhile_old_eq_filter (c : ℚ) (l : List DecryptedJob)
    (hs : l.Pairwise (fun a b => a.mTimestamp ≤ b.mTimestamp)) :
    l.dropWhile (fun j => decide (j.mTimestamp < c)) =
      l.filter (fun j => decide (c ≤ j.mTimestamp)) := by
  induction l with
  | nil => rfl
  | cons x xs ih =>
    rcases List.pairwise_cons.mp hs with ⟨hx, hxs⟩
    by_cases hxc : x.mTimestamp < c
    · have h1 : decide (x.mTimestamp < c) = true := by simpa using hxc
      have h2 : decide (c ≤ x.mTimestamp) = false := by
        simpa using not_le.mpr hxc
      simp only [List.dropWhile_cons, List.filter_cons, h1, h2,
        if_true, if_false, Bool.false_eq_true]
      exact ih hxs
    · push_neg at hxc
      have h1 : decide (x.mTimestamp < c) = false := by
        simpa using not_lt.mpr hxc
      have h2 : decide (c ≤ x.mTimestamp) = true := by simpa using hxc
      simp only [List.dropWhile_cons, List.filter_cons, h1, h2,
        if_true, if_false, Bool.false_eq_true]
      rw [List.filter_eq_self.mpr]
      intro j hj
      simpa using le_trans hxc (hx j hj)

/-- The accumulated duration as the claim words it: the sample's
duration plus the durations of the recorded jobs no older than the
0.1-second window before now. -/
def windowedDuration (lim : DecryptThroughputLimit) (now dur : ℚ) : ℚ :=
  dur + ((lim.mDecrypts.filter
      (fun j => decide (now - 1 / 10 ≤ j.mTimestamp))).map
    (fun j => j.mSampleDuration)).sum

theorem throttle_fst_eq (lim : DecryptThroughputLimit) (now dur : ℚ)
    (hs : lim.mDecrypts.Pairwise (fun a b => a.mTimestamp ≤ b.mTimestamp)) :
    (Throttle lim now dur).1 =
      if windowedDuration lim now dur < 1 / 5 then ThrottleResult.resolveNow
      else ThrottleResult.scheduleAt
        (now + (windowedDuration lim now dur - 1 / 5)) := by
  simp only [Throttle, windowedDuration,
    dropWhile_old_eq_filter (now - 1 / 10) lim.mDecrypts hs,
    foldl_add_durations]
  split <;> rfl

/-- C10: Throttle resolves its promise immediately iff, after
discarding the recorded decrypt jobs older than the 0.1-second window
before now, the sample's duration plus the remaining recorded
durations stays strictly below 0.2 seconds; otherwise it schedules
resolution at now plus that accumulated duration minus 0.2 seconds. -/
theorem throttle_window_spec (lim : DecryptThroughputLimit) (now dur : ℚ)
    (hs : lim.mDecrypts.Pairwise (fun a b => a.mTimestamp ≤ b.mTimestamp)) :
    ((Throttle lim now dur).1 = ThrottleResult.resolveNow ↔
        windowedDuration lim now dur < 1 / 5) ∧
      (¬windowedDuration lim now dur < 1 / 5 →
        (Throttle lim now dur).1 =
          ThrottleResult.scheduleAt
            (now + (windowedDuration lim now dur - 1 / 5))) := by
  rw [throttle_fst_eq lim now dur hs]
  constructor
  · constructor
    · intro h
      by_contra hnot
      rw [if_neg hnot] at h
      exact ThrottleResult.noConfusion h
    · intro h
      rw [if_pos h]
  · intro h
    rw [if_neg h]

/-- Witness for C10: an empty history resolves a 0.1 s sample
immediately; a history holding a recent 0.1 s job makes another 0.1 s
sample hit the threshold exactly, scheduling resolution at
now + (0.2 - 0.2) = now. -/
theorem throttle_window_spec_witness :
    (Throttle ⟨[]⟩ 0 (1 / 10)).1 = ThrottleResult.resolveNow ∧
      (Throttle ⟨[⟨0, 1 / 10⟩]⟩ (1 / 100) (1 / 10)).1 =
        ThrottleResult.scheduleAt (1 / 100) := by
  have h1 := throttle_window_spec ⟨[]⟩ 0 (1 / 10) (by simp)
  have h2 := throttle_window_spec ⟨[⟨0, 1 / 10⟩]⟩ (1 / 100) (1 / 10) (by simp)
  constructor
  · exact h1.1.mpr (by norm_num [windowedDuration])
  · have hval : windowedDuration ⟨[⟨0, 1 / 10⟩]⟩ (1 / 100) (1 / 10) =
        1 / 5 := by
      norm_num [windowedDuration, List.filter]
    have hge : ¬windowedDuration ⟨[⟨0, 1 / 10⟩]⟩ (1 / 100) (1 / 10) <
        1 / 5 := by
      rw [hval]
      exact lt_irrefl _
    rw [h2.2 hge, hval]
    norm_num

end Mypal68
